import Mathlib

/-!
Shallow embedding of spend_analysis.py: a batch tool that reads bank csv
exports, detects each file's layout, normalizes it to a Date/Amount/Description
table, concatenates all files, categorizes each row by a first-match regex rule
table, and writes the result.

Dataframes are modelled as a list of column labels plus rows of cells; cells
are strings, rational numbers, or NaN (pandas reads blank csv fields as NaN,
and pandas column labels after read_csv with no header are the integers
0, 1, 2, ...). Python exceptions are modelled with Except over an error kind.
The regular-expression engine used by lookup is external to the program, so
the match test re.search(pattern, description, re.IGNORECASE) is treated as an
abstract boolean parameter of lookup; a concrete case-insensitive substring
matcher is provided for running the pipeline on concrete inputs.
-/

namespace SpendAnalysis

/-- A pandas cell: a string, a rational number, or NaN. -/
inductive Cell where
  | str (s : String)
  | num (q : Rat)
  | nan
deriving DecidableEq, Repr

/-- Kinds of Python exception the script can raise. -/
inductive PyErr where
  | valueError
  | keyError
  | typeError
  | indexError
deriving DecidableEq, Repr

/-- A pandas dataframe: column labels (cells, since pandas labels may be the
integers produced by read_csv with no header, or strings) and rows of cells. -/
structure Table where
  cols : List Cell
  rows : List (List Cell)
deriving DecidableEq, Repr

/-- Position of a column label, as pandas column indexing finds it. -/
def Table.colIdx (t : Table) (l : Cell) : Option Nat :=
  t.cols.findIdx? (fun c => c = l)

/-- Read a whole column by label; KeyError when the label is absent. -/
def Table.getCol (t : Table) (l : Cell) : Except PyErr (List Cell) :=
  match t.colIdx l with
  | some i => .ok (t.rows.map (fun r => r.getD i .nan))
  | none => .error .keyError

/-- Assign a column by label: replace it in place when present, else append a
new column at the right end, as pandas column assignment does. -/
def Table.setCol (t : Table) (l : Cell) (vals : List Cell) : Table :=
  match t.colIdx l with
  | some i => ⟨t.cols, (t.rows.zip vals).map (fun p => p.1.set i p.2)⟩
  | none => ⟨t.cols ++ [l], (t.rows.zip vals).map (fun p => p.1 ++ [p.2])⟩

/-- Drop the given column labels; KeyError when one is absent (pandas drop). -/
def Table.dropCols (t : Table) (ls : List Cell) : Except PyErr Table :=
  if ls.all (fun l => t.cols.any (fun c => c = l)) then
    .ok ⟨t.cols.filter (fun c => !(ls.any (fun l => l = c))),
         t.rows.map (fun r =>
           ((t.cols.zip r).filter (fun p => !(ls.any (fun l => l = p.1)))).map
             (fun p => p.2))⟩
  else .error .keyError

/-- Select columns by label in the given order (pandas df of a label list);
KeyError when one is absent. -/
def Table.select (t : Table) (ls : List Cell) : Except PyErr Table :=
  if ls.all (fun l => t.cols.any (fun c => c = l)) then
    .ok ⟨ls, t.rows.map (fun r => ls.map (fun l => r.getD ((t.colIdx l).getD 0) .nan))⟩
  else .error .keyError

/-- Rename one column label (pandas rename). -/
def Table.renameCol (t : Table) (a b : Cell) : Table :=
  ⟨t.cols.map (fun c => if c = a then b else c), t.rows⟩

/-- Replace NaN by the number 0 in one cell. -/
def fillCell (c : Cell) : Cell :=
  if c = .nan then .num 0 else c

/-- Dataframe-wide fillna(0). -/
def Table.fillna0 (t : Table) : Table :=
  ⟨t.cols, t.rows.map (fun r => r.map fillCell)⟩

/-- Fold a list of digit characters into a natural number. -/
def digitsToNat (cs : List Char) : Nat :=
  cs.foldl (fun a c => a * 10 + (c.toNat - 48)) 0

/-- True when the character list is nonempty and all digits. -/
def isDigits (cs : List Char) : Bool :=
  !cs.isEmpty && cs.all Char.isDigit

/-- Split a character list on a separator character; like str.split the
result always has one more group than there are separators. -/
def splitOnChar (sep : Char) : List Char → List (List Char)
  | [] => [[]]
  | c :: rest =>
    match splitOnChar sep rest with
    | [] => [[c]]
    | g :: gs => if c == sep then [] :: g :: gs else (c :: g) :: gs

/-- True for the whitespace stripped by Python float around a numeral. -/
def isSpaceChar (c : Char) : Bool :=
  c == ' ' || c == '\t' || c == '\n' || c == '\r'

/-- Strip leading and trailing whitespace. -/
def trimChars (cs : List Char) : List Char :=
  ((cs.dropWhile isSpaceChar).reverse.dropWhile isSpaceChar).reverse

/-- Parse an unsigned decimal literal: digits, digits.digits, .digits or
digits. with at least one digit overall, as Python float accepts. The value
of i.f with k fraction digits is (i times 10 to the k plus f) over 10 to
the k. -/
def parseUnsigned (cs : List Char) : Option Rat :=
  match splitOnChar '.' cs with
  | [i] => if isDigits i then some ((digitsToNat i : Rat)) else none
  | [i, f] =>
    if (i.isEmpty || i.all Char.isDigit) && (f.isEmpty || f.all Char.isDigit)
        && !(i.isEmpty && f.isEmpty) then
      some (mkRat (digitsToNat i * 10 ^ f.length + digitsToNat f) (10 ^ f.length))
    else none
  | _ => none

/-- Parse a signed decimal literal. -/
def parseSignedRat : List Char → Option Rat
  | '-' :: rest => (parseUnsigned rest).map Neg.neg
  | '+' :: rest => parseUnsigned rest
  | cs => parseUnsigned cs

/-- Parse a signed digit string to an integer (exponent part of a float). -/
def parseIntChars : List Char → Option Int
  | '-' :: rest => if isDigits rest then some (-(digitsToNat rest : Int)) else none
  | '+' :: rest => if isDigits rest then some ((digitsToNat rest : Int)) else none
  | cs => if isDigits cs then some ((digitsToNat cs : Int)) else none

/-- Model of the numeric string parse performed by pd.to_numeric on a string
cell: optional surrounding whitespace, sign, decimal mantissa, optional
exponent. Returns none when the string is not numeric (pandas raises
ValueError there). Exotic forms (inf, nan literals, underscores) are not
modelled. -/
def parseFloat (s : String) : Option Rat :=
  let t := trimChars (s.data.map Char.toLower)
  match splitOnChar 'e' t with
  | [m] => parseSignedRat m
  | [m, e] =>
    match parseSignedRat m, parseIntChars e with
    | some mv, some ev =>
      some (if 0 ≤ ev then mkRat (mv.num * (10 : Int) ^ ev.toNat) mv.den
            else mkRat mv.num (mv.den * 10 ^ (-ev).toNat))
    | _, _ => none
  | _ => none

/-- pd.to_numeric on one cell: numbers and NaN pass through, numeric strings
parse, anything else raises ValueError. -/
def toNumericCell : Cell → Except PyErr Cell
  | .num q => .ok (.num q)
  | .nan => .ok .nan
  | .str s =>
    match parseFloat s with
    | some q => .ok (.num q)
    | none => .error .valueError

/-- Exact addition of rationals, written with mkRat so that it evaluates on
concrete inputs; ratAdd_eq_add below shows it is ordinary Rat addition. -/
def ratAdd (a b : Rat) : Rat :=
  mkRat (a.num * b.den + b.num * a.den) (a.den * b.den)

/-- Pandas addition of two cells as it occurs on the to_numeric, fillna-ed
Debit and Credit columns: numbers add, anything else is NaN. -/
def cellAdd : Cell → Cell → Cell
  | .num a, .num b => .num (ratAdd a b)
  | _, _ => .nan

/-- True for leap years of the proleptic Gregorian calendar used by
datetime. -/
def isLeapYear (y : Nat) : Bool :=
  y % 4 == 0 && (y % 100 != 0 || y % 400 == 0)

/-- Number of days of a month, as datetime validates day-of-month. -/
def daysInMonth (m y : Nat) : Nat :=
  if m = 2 then (if isLeapYear y then 29 else 28)
  else if m = 4 ∨ m = 6 ∨ m = 9 ∨ m = 11 then 30
  else 31

/-- True when the character list has one or two characters, all digits. -/
def isOneOrTwoDigits (cs : List Char) : Bool :=
  isDigits cs && cs.length ≤ 2

/-- Model of datetime.strptime(s, percent-m slash percent-d slash percent-Y)
succeeding: month of one or two digits in 1..12, day of one or two digits
valid for the month and year, year of exactly four digits and at least 1,
separated by slashes, with the whole string consumed. -/
def parseDateMMDDYYYY (s : String) : Bool :=
  match splitOnChar '/' s.data with
  | [m, d, y] =>
    isOneOrTwoDigits m && isOneOrTwoDigits d && isDigits y && y.length == 4 &&
      (let mv := digitsToNat m
       let dv := digitsToNat d
       let yv := digitsToNat y
       decide (1 ≤ mv ∧ mv ≤ 12 ∧ 1 ≤ dv ∧ dv ≤ daysInMonth mv yv ∧ 1 ≤ yv))
  | _ => false

/-- The categorizer of spend_analysis.py. The parameter search stands for the
external regex test: search pat descr models
re.search(pat, descr, re.IGNORECASE) finding a match. The rule table rows are
(regex, category) pairs in file order. First match wins; the sentinel
"unknown" is returned when no rule matches. -/
def lookup (search : String → String → Bool) (description : String)
    (lookups : List (String × String)) : String :=
  match lookups with
  | [] => "unknown"
  | p :: rest => if search p.1 description then p.2 else lookup search description rest

/-- Case-insensitive substring matcher: a concrete instance of the abstract
search parameter, sufficient for the plain-text patterns of the examples. -/
def prefixAt : List Char → List Char → Bool
  | [], _ => true
  | _ :: _, [] => false
  | a :: xs, b :: ys => a == b && prefixAt xs ys

/-- True when the first list occurs as a contiguous sublist of the second. -/
def containsSub : List Char → List Char → Bool
  | p, [] => p.isEmpty
  | p, c :: rest => prefixAt p (c :: rest) || containsSub p rest

/-- Case-insensitive containment of pat inside s. -/
def containsCI (pat s : String) : Bool :=
  containsSub (pat.data.map Char.toLower) (s.data.map Char.toLower)

/-- normalize_citi of spend_analysis.py: take row 0 as the column names and
drop it, force Debit and Credit numeric, fillna(0) over the whole frame, set
Amount to Credit plus Debit, drop Status, Member Name, Debit and Credit, and
reorder to Date, Amount, Description. -/
def normalize_citi (t : Table) : Except PyErr Table :=
  match t.rows with
  | [] => .error .indexError
  | r0 :: rest => do
    let df : Table := ⟨r0, rest⟩
    let debit ← df.getCol (.str "Debit")
    let debitN ← debit.mapM toNumericCell
    let df := df.setCol (.str "Debit") debitN
    let credit ← df.getCol (.str "Credit")
    let creditN ← credit.mapM toNumericCell
    let df := df.setCol (.str "Credit") creditN
    let df := df.fillna0
    let credit2 ← df.getCol (.str "Credit")
    let debit2 ← df.getCol (.str "Debit")
    let df := df.setCol (.str "Amount") (List.zipWith cellAdd credit2 debit2)
    let df ← df.dropCols [.str "Status", .str "Member Name", .str "Debit", .str "Credit"]
    df.select [.str "Date", .str "Amount", .str "Description"]

/-- normalize_discover of spend_analysis.py: take row 0 as the column names
and drop it, drop Post Date and Category, rename Trans. Date to Date, keep
the order Date, Description, Amount, and force Amount numeric. -/
def normalize_discover (t : Table) : Except PyErr Table :=
  match t.rows with
  | [] => .error .indexError
  | r0 :: rest => do
    let df : Table := ⟨r0, rest⟩
    let df ← df.dropCols [.str "Post Date", .str "Category"]
    let df := df.renameCol (.str "Trans. Date") (.str "Date")
    let df ← df.select [.str "Date", .str "Description", .str "Amount"]
    let amount ← df.getCol (.str "Amount")
    let amountN ← amount.mapM toNumericCell
    .ok (df.setCol (.str "Amount") amountN)

/-- normalize_wellsfargo of spend_analysis.py: drop the integer-labelled
columns 2 and 3 (KeyError when absent), then assign the three column names
Date, Amount, Description (pandas raises ValueError when the frame does not
have exactly three remaining columns). No header row exists or is dropped. -/
def normalize_wellsfargo (t : Table) : Except PyErr Table := do
  let df ← t.dropCols [.num 2, .num 3]
  if df.cols.length = 3 then
    .ok ⟨[.str "Date", .str "Amount", .str "Description"], df.rows⟩
  else .error .valueError

/-- The four outcomes of the format sniffing of main. -/
inductive Format where
  | citi
  | discover
  | wellsfargo
  | unrecognized
deriving DecidableEq, Repr

/-- The chained conditionals of main on the first cell of the first row:
the literal Status picks citi, else the literal Trans. Date picks discover,
else a first cell that parses with strptime as MM/DD/YYYY picks wellsfargo,
else the ValueError of strptime is caught and the file is unrecognized.
A non-string first cell makes strptime raise TypeError, which main does not
catch. -/
def detectCell (c : Cell) : Except PyErr Format :=
  if c = .str "Status" then .ok .citi
  else if c = .str "Trans. Date" then .ok .discover
  else
    match c with
    | .str s => if parseDateMMDDYYYY s then .ok .wellsfargo else .ok .unrecognized
    | _ => .error .typeError

/-- The cell df[0][0] read by main: column labelled 0, first row. -/
def Table.at00 (t : Table) : Except PyErr Cell :=
  match t.colIdx (.num 0) with
  | none => .error .keyError
  | some i =>
    match t.rows with
    | [] => .error .keyError
    | r :: _ => .ok (r.getD i .nan)

/-- The diagnostic printed by main for an unrecognized file. -/
def unknownFormatMsg (name : String) : String :=
  "Error: Unknown format from " ++ name

/-- One iteration of the file loop of main: detect the format of the raw
frame and run the matching normalizer, appending the normalized table to the
accumulator. Only the ValueError of the strptime probe and of
normalize_wellsfargo is caught (producing the unknown-format diagnostic and
skipping the file); every other exception propagates and aborts the run. -/
def processFile (st : List Table × List String) (f : String × Table) :
    Except PyErr (List Table × List String) := do
  let c ← f.2.at00
  let fmt ← detectCell c
  match fmt with
  | .citi => do
    let t ← normalize_citi f.2
    .ok (st.1 ++ [t], st.2)
  | .discover => do
    let t ← normalize_discover f.2
    .ok (st.1 ++ [t], st.2)
  | .wellsfargo =>
    match normalize_wellsfargo f.2 with
    | .ok t => .ok (st.1 ++ [t], st.2)
    | .error .valueError => .ok (st.1, st.2 ++ [unknownFormatMsg f.1])
    | .error e => .error e
  | .unrecognized => .ok (st.1, st.2 ++ [unknownFormatMsg f.1])

/-- The file loop of main from a given accumulator state. -/
def processAllFrom (st : List Table × List String) (files : List (String × Table)) :
    Except PyErr (List Table × List String) :=
  files.foldlM processFile st

/-- The file loop of main from the initial empty state. -/
def processAll (files : List (String × Table)) : Except PyErr (List Table × List String) :=
  processAllFrom ([], []) files

/-- Union of column labels in order of first appearance, as pd.concat with
the default sort=False aligns columns of frames with differing orders. -/
def colsUnion (acc : List Cell) (cs : List Cell) : List Cell :=
  acc ++ cs.filter (fun c => !(acc.any (fun a => a = c)))

/-- Reindex one row from its own column order to the target column order;
labels the row's frame lacks become NaN. -/
def reindexRow (cols target : List Cell) (r : List Cell) : List Cell :=
  target.map (fun l =>
    match cols.findIdx? (fun c => c = l) with
    | some i => r.getD i .nan
    | none => .nan)

/-- pd.concat of a list of frames: ValueError on the empty list (no objects
to concatenate); otherwise the columns are the union in order of first
appearance (so the first frame fixes the leading order) and every row is
reindexed to that column order, file order and in-file row order kept. -/
def concatTables (ts : List Table) : Except PyErr Table :=
  match ts with
  | [] => .error .valueError
  | t :: rest =>
    let allCols := rest.foldl (fun acc u => colsUnion acc u.cols) t.cols
    .ok ⟨allCols, (ts.map (fun u => u.rows.map (reindexRow u.cols allCols))).flatten⟩

/-- lookup applied to one Description cell; re.search on a non-string raises
TypeError. -/
def categoryCell (search : String → String → Bool) (rules : List (String × String)) :
    Cell → Except PyErr Cell
  | .str s => .ok (.str (lookup search s rules))
  | _ => .error .typeError

/-- The categorization step of main: a new Category column, computed from the
Description column, is assigned (appended at the right end). -/
def applyCategory (search : String → String → Bool) (rules : List (String × String))
    (t : Table) : Except PyErr Table := do
  let desc ← t.getCol (.str "Description")
  let cats ← desc.mapM (categoryCell search rules)
  .ok (t.setCol (.str "Category") cats)

/-- The whole pipeline of main after the rule file is read: loop over the
input files, concatenate the accumulated normalized tables, categorize, and
return the table written to out.csv together with the printed diagnostics.
An error value is an uncaught Python exception: the run aborts and no output
file is written. -/
def mainRun (search : String → String → Bool) (rules : List (String × String))
    (files : List (String × Table)) : Except PyErr (Table × List String) := do
  let st ← processAll files
  let result ← concatTables st.1
  let final ← applyCategory search rules result
  .ok (final, st.2)

/-- Raw frame as read_csv(file, header=None) yields it: integer column
labels 0..n-1 taken from the width of the first row. -/
def mkRaw (rows : List (List Cell)) : Table :=
  ⟨(List.range ((rows.headD []).length)).map (fun i => Cell.num i), rows⟩

/-- True when pd.to_numeric accepts the cell: NaN and numbers pass, strings
must parse as numerals. -/
def numericOk : Cell → Bool
  | .nan => true
  | .num _ => true
  | .str s => (parseFloat s).isSome

/-- Value of a numeric-ok cell after to_numeric and fillna(0): blanks count
as zero. -/
def numValOf : Cell → Rat
  | .nan => 0
  | .num q => q
  | .str s => (parseFloat s).getD 0

/-- Cell after to_numeric alone: NaN stays NaN, strings become their parsed
number. -/
def toNumCell : Cell → Cell
  | .nan => .nan
  | .num q => .num q
  | .str s => .num ((parseFloat s).getD 0)

/-- True when the cell is a string. -/
def cellIsStr : Cell → Bool
  | .str _ => true
  | _ => false

/-- The string of a string cell (arbitrary on other cells). -/
def strOf : Cell → String
  | .str s => s
  | _ => ""

/-- One data row of a Format A (citi) csv, under the header
Status, Date, Description, Debit, Credit, Member Name. -/
structure CitiRaw where
  status : Cell
  date : Cell
  descr : Cell
  debit : Cell
  credit : Cell
  member : Cell
deriving DecidableEq, Repr

/-- The Format A header row. -/
def citiHeader : List Cell :=
  [.str "Status", .str "Date", .str "Description", .str "Debit", .str "Credit",
   .str "Member Name"]

/-- Render a Format A record as a raw csv row. -/
def CitiRaw.toRow (r : CitiRaw) : List Cell :=
  [r.status, r.date, r.descr, r.debit, r.credit, r.member]

/-- One data row of a Format B (discover) csv, under the header
Trans. Date, Post Date, Description, Amount, Category. -/
structure DiscoverRaw where
  transDate : Cell
  postDate : Cell
  descr : Cell
  amount : Cell
  category : Cell
deriving DecidableEq, Repr

/-- The Format B header row. -/
def discoverHeader : List Cell :=
  [.str "Trans. Date", .str "Post Date", .str "Description", .str "Amount",
   .str "Category"]

/-- Render a Format B record as a raw csv row. -/
def DiscoverRaw.toRow (r : DiscoverRaw) : List Cell :=
  [r.transDate, r.postDate, r.descr, r.amount, r.category]

/-- One row of a Format C (wells fargo) csv: positional columns date, amount,
flag, blank, description, with no header row. -/
structure WfRaw where
  date : Cell
  amount : Cell
  flag : Cell
  blank : Cell
  descr : Cell
deriving DecidableEq, Repr

/-- Render a Format C record as a raw csv row. -/
def WfRaw.toRow (r : WfRaw) : List Cell :=
  [r.date, r.amount, r.flag, r.blank, r.descr]

/-- The rule table of Scenario 1 of the spec. -/
def demoRules : List (String × String) :=
  [("ALDI", "food"), ("AMAZING THREADS", "merchandise")]

/-- The Format A data row of Scenario 2 of the spec. -/
def c3row : CitiRaw :=
  ⟨.str "Cleared", .str "01/28/2023",
   .str "BROOKLYN PARK PET HOSPITA BROOKLYN PARK MN", .str "14.52", .nan,
   .str "BOB JONES"⟩

/-- The Format B data row of Scenario 3 of the spec. -/
def c4row : DiscoverRaw :=
  ⟨.str "01/10/2022", .str "01/11/2022", .str "THE HOME DEPOT #0509 AUSTIN TX",
   .str "27.03", .str "Home Improvement"⟩

/-- A Format A table whose Debit cell does not parse as a number. -/
def badCitiNumeric : Table :=
  mkRaw [citiHeader,
         [.str "Cleared", .str "01/28/2023", .str "VET VISIT", .str "abc", .nan,
          .str "BOB"]]

/-- A table detected as Format A whose header lacks the Debit column. -/
def badCitiMissing : Table :=
  mkRaw [[.str "Status", .str "Date", .str "Description", .str "Credit",
          .str "Member Name"],
         [.str "Cleared", .str "01/28/2023", .str "VET VISIT", .nan, .str "BOB"]]

/-- The unrecognized file of Scenario 5 of the spec. -/
def scen5Table : Table :=
  mkRaw [[.str "???", .str "x", .str "y"]]

/-- A well-formed Format C table used to show processing continues. -/
def wfScenTable : Table :=
  mkRaw [[.str "01/10/2023", .num (mkRat (-724) 100), .str "*", .nan,
          .str "Audible Amzn"]]

/-- A source csv file of one of the three supported layouts, given by its
typed data rows. -/
inductive SrcFile where
  | citi (rs : List CitiRaw)
  | discover (rs : List DiscoverRaw)
  | wellsfargo (rs : List WfRaw)
deriving Repr

/-- The raw frame read_csv produces for the file. -/
def SrcFile.raw : SrcFile → Table
  | .citi rs => mkRaw (citiHeader :: rs.map CitiRaw.toRow)
  | .discover rs => mkRaw (discoverHeader :: rs.map DiscoverRaw.toRow)
  | .wellsfargo rs => mkRaw (rs.map WfRaw.toRow)

/-- The column order the file's normalizer emits: Date, Description, Amount
for Format B, and Date, Amount, Description for Formats A and C. -/
def SrcFile.canonCols : SrcFile → List Cell
  | .discover _ => [.str "Date", .str "Description", .str "Amount"]
  | _ => [.str "Date", .str "Amount", .str "Description"]

/-- The canonical (date, amount, description) record of each data row after
normalization, in the file's row order. -/
def SrcFile.recs : SrcFile → List (Cell × Cell × String)
  | .citi rs => rs.map (fun r =>
      (fillCell r.date, .num (ratAdd (numValOf r.credit) (numValOf r.debit)),
       strOf r.descr))
  | .discover rs => rs.map (fun r => (r.transDate, toNumCell r.amount, strOf r.descr))
  | .wellsfargo rs => rs.map (fun r => (r.date, r.amount, strOf r.descr))

/-- Lay one canonical record out under a given column order. -/
def renderRec (cols : List Cell) (rec : Cell × Cell × String) : List Cell :=
  cols.map (fun l =>
    if l = .str "Date" then rec.1
    else if l = .str "Amount" then rec.2.1
    else if l = .str "Description" then .str rec.2.2
    else .nan)

/-- The normalized table the file's normalizer produces. -/
def SrcFile.canonTable (f : SrcFile) : Table :=
  ⟨f.canonCols, f.recs.map (renderRec f.canonCols)⟩

/-- Well-formedness making a file process cleanly: numeric cells parse,
descriptions are strings, and a wells fargo file is nonempty with a first
date cell in MM/DD/YYYY form. -/
def wellFormed : SrcFile → Bool
  | .citi rs => rs.all (fun r => numericOk r.debit && numericOk r.credit &&
      cellIsStr r.descr)
  | .discover rs => rs.all (fun r => numericOk r.amount && cellIsStr r.descr)
  | .wellsfargo rs =>
    match rs with
    | [] => false
    | r0 :: _ =>
      rs.all (fun r => cellIsStr r.descr) &&
        (match r0.date with
         | .str s => parseDateMMDDYYYY s
         | _ => false)

/-- A well-formed Format C record used in concrete runs. -/
def c9wfRow : WfRaw :=
  ⟨.str "01/10/2023", .num (mkRat (-724) 100), .str "*", .nan, .str "Audible Amzn"⟩

theorem bindOk {α β : Type} (a : α) (f : α → Except PyErr β) :
    (Except.ok a : Except PyErr α) >>= f = f a := rfl

theorem bindErr {α β : Type} (e : PyErr) (f : α → Except PyErr β) :
    (Except.error e : Except PyErr α) >>= f = .error e := rfl

theorem mapM_toNumericCell_ok (l : List Cell) (h : ∀ c ∈ l, numericOk c) :
    l.mapM toNumericCell = .ok (l.map toNumCell) := by
  induction l with
  | nil => rfl
  | cons c cs ih =>
    have hc : numericOk c := h c (by simp)
    have hcs := ih (fun x hx => h x (by simp [hx]))
    rw [List.mapM_cons, hcs]
    cases c with
    | nan => simp [toNumericCell, toNumCell]; rfl
    | num q => simp [toNumericCell, toNumCell]; rfl
    | str s =>
      cases hp : parseFloat s with
      | none => simp [numericOk, hp] at hc
      | some q => simp [toNumericCell, toNumCell, hp]; rfl

/-- C1. For every description string and every rule table, lookup scans the
rules in definition order and returns the category of the first rule whose
pattern matches the description (the abstract parameter search models the
case-insensitive, unanchored regex search of re.search with re.IGNORECASE);
when no rule matches, including on the empty table, it returns the sentinel
string unknown. -/
theorem lookup_first_match (search : String → String → Bool) (description : String)
    (rules : List (String × String)) :
    (∀ p, rules.find? (fun q => search q.1 description) = some p →
      lookup search description rules = p.2) ∧
    (rules.find? (fun q => search q.1 description) = none →
      lookup search description rules = "unknown") := by
  induction rules with
  | nil => simp [lookup]
  | cons p rest ih =>
    cases h : search p.1 description with
    | true =>
      have hfind : List.find? (fun q => search q.1 description) (p :: rest) = some p := by
        simp [List.find?, h]
      constructor
      · intro q hq
        rw [hfind] at hq
        cases hq
        simp [lookup, h]
      · intro hq
        rw [hfind] at hq
        exact absurd hq (by simp)
    | false =>
      have hfind : List.find? (fun q => search q.1 description) (p :: rest) =
          List.find? (fun q => search q.1 description) rest := by
        simp [List.find?, h]
      constructor
      · intro q hq
        rw [hfind] at hq
        simpa [lookup, h] using ih.1 q hq
      · intro hq
        rw [hfind] at hq
        simpa [lookup, h] using ih.2 hq

/-- Witness for C1 at the inputs of Scenario 1 of the spec, with the concrete
case-insensitive substring matcher standing in for re.search. -/
theorem lookup_first_match_witness :
    lookup containsCI "ALDI 72083 CRYSTAL MN" demoRules = "food" ∧
    lookup containsCI "UNKNOWN VENDOR" demoRules = "unknown" :=
  ⟨(lookup_first_match containsCI "ALDI 72083 CRYSTAL MN" demoRules).1
      ("ALDI", "food") (by decide),
   (lookup_first_match containsCI "UNKNOWN VENDOR" demoRules).2 (by decide)⟩

/-- C2. The format sniff of main checks the first cell of the first row in a
fixed order with the first match winning: the literal Status selects Format A
(citi), else the literal Trans. Date selects Format B (discover), else a cell
parsing as an MM/DD/YYYY date selects Format C (wells fargo), and otherwise
the file is unrecognized. The four characterizations below are mutually
exclusive and exhaust all string first cells, so classification is total and
mutually exclusive. -/
theorem detect_first_match (s : String) :
    (detectCell (.str s) = .ok .citi ↔ s = "Status") ∧
    (detectCell (.str s) = .ok .discover ↔ s ≠ "Status" ∧ s = "Trans. Date") ∧
    (detectCell (.str s) = .ok .wellsfargo ↔
      s ≠ "Status" ∧ s ≠ "Trans. Date" ∧ parseDateMMDDYYYY s = true) ∧
    (detectCell (.str s) = .ok .unrecognized ↔
      s ≠ "Status" ∧ s ≠ "Trans. Date" ∧ parseDateMMDDYYYY s = false) := by
  by_cases h1 : s = "Status"
  · subst h1
    simp [detectCell]
  · by_cases h2 : s = "Trans. Date"
    · subst h2
      simp [detectCell, h1]
    · cases hb : parseDateMMDDYYYY s
      · simp [detectCell, h1, h2, hb]
      · simp [detectCell, h1, h2, hb]

theorem map_congr_mem {α β : Type} (l : List α) (f g : α → β)
    (h : ∀ a ∈ l, f a = g a) : l.map f = l.map g := by
  induction l with
  | nil => rfl
  | cons x xs ih =>
    simp only [List.map_cons]
    rw [h x (by simp), ih (fun a ha => h a (by simp [ha]))]

theorem zip_map_map {α β γ : Type} (l : List α) (f : α → β) (g : α → γ) :
    (l.map f).zip (l.map g) = l.map (fun a => (f a, g a)) := by
  induction l with
  | nil => rfl
  | cons x xs ih => simp [ih]

theorem zipWith_map_map {α β γ δ : Type} (l : List α) (f : α → β) (g : α → γ)
    (k : β → γ → δ) :
    List.zipWith k (l.map f) (l.map g) = l.map (fun a => k (f a) (g a)) := by
  induction l with
  | nil => rfl
  | cons x xs ih => simp [ih]

theorem ratAdd_eq_add (a b : Rat) : ratAdd a b = a + b := by
  have ha : ((a.den : Rat)) ≠ 0 := by exact_mod_cast a.den_nz
  have hb : ((b.den : Rat)) ≠ 0 := by exact_mod_cast b.den_nz
  rw [ratAdd, Rat.mkRat_eq_divInt, Rat.divInt_eq_div]
  conv_rhs => rw [← Rat.num_div_den a, ← Rat.num_div_den b]
  push_cast
  field_simp

theorem fill_toNum_of_ok (c : Cell) (h : numericOk c) :
    fillCell (toNumCell c) = .num (numValOf c) := by
  cases c with
  | nan => simp [fillCell, toNumCell, numValOf]
  | num q => simp [fillCell, toNumCell, numValOf]
  | str s =>
    cases hp : parseFloat s with
    | none => simp [numericOk, hp] at h
    | some q => simp [fillCell, toNumCell, numValOf, hp]

theorem normalize_citi_ok (rs : List CitiRaw)
    (h : ∀ r ∈ rs, numericOk r.debit ∧ numericOk r.credit) :
    normalize_citi (mkRaw (citiHeader :: rs.map CitiRaw.toRow)) =
      .ok ⟨[.str "Date", .str "Amount", .str "Description"],
           rs.map (fun r => [fillCell r.date,
                             .num (ratAdd (numValOf r.credit) (numValOf r.debit)),
                             fillCell r.descr])⟩ := by
  have hg3 : ∀ rows, Table.getCol ⟨citiHeader, rows⟩ (.str "Debit") =
      .ok (rows.map (fun r => r.getD 3 .nan)) := fun _ => rfl
  have hg4 : ∀ rows, Table.getCol ⟨citiHeader, rows⟩ (.str "Credit") =
      .ok (rows.map (fun r => r.getD 4 .nan)) := fun _ => rfl
  have hs3 : ∀ rows vals, Table.setCol ⟨citiHeader, rows⟩ (.str "Debit") vals =
      ⟨citiHeader, (rows.zip vals).map (fun p => p.1.set 3 p.2)⟩ := fun _ _ => rfl
  have hs4 : ∀ rows vals, Table.setCol ⟨citiHeader, rows⟩ (.str "Credit") vals =
      ⟨citiHeader, (rows.zip vals).map (fun p => p.1.set 4 p.2)⟩ := fun _ _ => rfl
  have hfill : ∀ rows, Table.fillna0 ⟨citiHeader, rows⟩ =
      ⟨citiHeader, rows.map (fun r => r.map fillCell)⟩ := fun _ => rfl
  have hsA : ∀ rows vals, Table.setCol ⟨citiHeader, rows⟩ (.str "Amount") vals =
      ⟨citiHeader ++ [.str "Amount"], (rows.zip vals).map (fun p => p.1 ++ [p.2])⟩ :=
    fun _ _ => rfl
  have hdrop : ∀ rows, Table.dropCols ⟨citiHeader ++ [.str "Amount"], rows⟩
      [.str "Status", .str "Member Name", .str "Debit", .str "Credit"] =
      .ok ⟨[.str "Date", .str "Description", .str "Amount"],
           rows.map (fun r => (((citiHeader ++ [Cell.str "Amount"]).zip r).filter
             (fun p => !(([Cell.str "Status", .str "Member Name", .str "Debit",
                 .str "Credit"] : List Cell).any (fun l => l = p.1)))).map
             (fun p => p.2))⟩ := fun _ => rfl
  have hsel : ∀ rows, Table.select
      ⟨[Cell.str "Date", .str "Description", .str "Amount"], rows⟩
      [.str "Date", .str "Amount", .str "Description"] =
      .ok ⟨[.str "Date", .str "Amount", .str "Description"],
           rows.map (fun r => [r.getD 0 .nan, r.getD 2 .nan, r.getD 1 .nan])⟩ :=
    fun _ => rfl
  dsimp only [normalize_citi, mkRaw]
  simp only [hg3, hg4, hs3, hs4, hfill, hsA, hdrop, hsel, bindOk]
  rw [mapM_toNumericCell_ok]
  · simp only [bindOk, hg3, hg4, hs3, hs4, hfill, hsA, hdrop, hsel]
    rw [mapM_toNumericCell_ok]
    · simp only [bindOk, hg3, hg4, hs3, hs4, hfill, hsA, hdrop, hsel]
      refine congrArg Except.ok (congrArg (Table.mk _) ?_)
      simp only [List.map_map, zip_map_map, zipWith_map_map]
      refine map_congr_mem _ _ _ (fun r hr => ?_)
      obtain ⟨hd, hc⟩ := h r hr
      obtain ⟨st, dt, de, db, cr, mb⟩ := r
      trans [fillCell dt, cellAdd (fillCell (toNumCell cr)) (fillCell (toNumCell db)),
             fillCell de]
      · rfl
      · rw [fill_toNum_of_ok db hd, fill_toNum_of_ok cr hc]
        rfl
    · intro c hc
      simp only [List.map_map, zip_map_map, List.mem_map] at hc
      obtain ⟨r, hr, rfl⟩ := hc
      exact (h r hr).2
  · intro c hc
    simp only [List.map_map, List.mem_map] at hc
    obtain ⟨r, hr, rfl⟩ := hc
    exact (h r hr).1

theorem normalize_discover_ok (rs : List DiscoverRaw)
    (h : ∀ r ∈ rs, numericOk r.amount) :
    normalize_discover (mkRaw (discoverHeader :: rs.map DiscoverRaw.toRow)) =
      .ok ⟨[.str "Date", .str "Description", .str "Amount"],
           rs.map (fun r => [r.transDate, r.descr, toNumCell r.amount])⟩ := by
  have hdrop : ∀ rows, Table.dropCols ⟨discoverHeader, rows⟩
      [.str "Post Date", .str "Category"] =
      .ok ⟨[.str "Trans. Date", .str "Description", .str "Amount"],
           rows.map (fun r => ((discoverHeader.zip r).filter
             (fun p => !(([Cell.str "Post Date", .str "Category"] : List Cell).any
               (fun l => l = p.1)))).map (fun p => p.2))⟩ := fun _ => rfl
  have hren : ∀ rows, Table.renameCol
      ⟨[Cell.str "Trans. Date", .str "Description", .str "Amount"], rows⟩
      (.str "Trans. Date") (.str "Date") =
      ⟨[Cell.str "Date", .str "Description", .str "Amount"], rows⟩ := fun _ => rfl
  have hsel : ∀ rows, Table.select
      ⟨[Cell.str "Date", .str "Description", .str "Amount"], rows⟩
      [.str "Date", .str "Description", .str "Amount"] =
      .ok ⟨[.str "Date", .str "Description", .str "Amount"],
           rows.map (fun r => [r.getD 0 .nan, r.getD 1 .nan, r.getD 2 .nan])⟩ :=
    fun _ => rfl
  have hgA : ∀ rows, Table.getCol
      ⟨[Cell.str "Date", .str "Description", .str "Amount"], rows⟩ (.str "Amount") =
      .ok (rows.map (fun r => r.getD 2 .nan)) := fun _ => rfl
  have hsetA : ∀ rows vals, Table.setCol
      ⟨[Cell.str "Date", .str "Description", .str "Amount"], rows⟩ (.str "Amount") vals =
      ⟨[Cell.str "Date", .str "Description", .str "Amount"],
       (rows.zip vals).map (fun p => p.1.set 2 p.2)⟩ := fun _ _ => rfl
  dsimp only [normalize_discover, mkRaw]
  simp only [hdrop, hren, hsel, hgA, hsetA, bindOk]
  rw [mapM_toNumericCell_ok]
  · simp only [bindOk, hsetA]
    refine congrArg Except.ok (congrArg (Table.mk _) ?_)
    simp only [List.map_map, zip_map_map, zipWith_map_map]
    refine map_congr_mem _ _ _ (fun r hr => ?_)
    obtain ⟨td, pd, de, am, cat⟩ := r
    rfl
  · intro c hc
    simp only [List.map_map, List.mem_map] at hc
    obtain ⟨r, hr, rfl⟩ := hc
    exact h r hr

theorem normalize_wellsfargo_ok (r0 : WfRaw) (rs : List WfRaw) :
    normalize_wellsfargo (mkRaw ((r0 :: rs).map WfRaw.toRow)) =
      .ok ⟨[.str "Date", .str "Amount", .str "Description"],
           (r0 :: rs).map (fun r => [r.date, r.amount, r.descr])⟩ := by
  have hmk : mkRaw ((r0 :: rs).map WfRaw.toRow) =
      ⟨[.num 0, .num 1, .num 2, .num 3, .num 4], (r0 :: rs).map WfRaw.toRow⟩ := rfl
  have hdrop : ∀ rows, Table.dropCols
      ⟨[.num 0, .num 1, .num 2, .num 3, .num 4], rows⟩ [.num 2, .num 3] =
      .ok ⟨[.num 0, .num 1, .num 4],
           rows.map (fun r =>
             ((([Cell.num 0, .num 1, .num 2, .num 3, .num 4] : List Cell).zip r).filter
               (fun p => !(([Cell.num 2, .num 3] : List Cell).any (fun l => l = p.1)))).map
               (fun p => p.2))⟩ := fun _ => rfl
  rw [hmk]
  unfold normalize_wellsfargo
  rw [hdrop, bindOk]
  simp only [List.length_cons, List.length_nil]
  rw [if_pos trivial]
  refine congrArg Except.ok (congrArg (Table.mk _) ?_)
  rw [List.map_map]
  refine map_congr_mem _ _ _ (fun r _ => ?_)
  obtain ⟨dt, am, fl, bl, de⟩ := r
  rfl

/-- C3. For every raw table in Format A (canonical citi layout, header row
Status, Date, Description, Debit, Credit, Member Name) whose Debit and Credit
cells parse as numbers or are blank, normalize_citi treats row 0 as column
names and drops it from the data, parses Debit and Credit treating
blank/missing as 0, sets Amount to Credit plus Debit with no re-signing,
drops the Status, Member Name, Debit and Credit columns, and outputs the
columns Date, Amount, Description in that order with row order preserved. -/
theorem normalize_citi_spec (rs : List CitiRaw)
    (h : ∀ r ∈ rs, numericOk r.debit ∧ numericOk r.credit) :
    normalize_citi (mkRaw (citiHeader :: rs.map CitiRaw.toRow)) =
      .ok ⟨[.str "Date", .str "Amount", .str "Description"],
           rs.map (fun r => [fillCell r.date,
                             .num (numValOf r.credit + numValOf r.debit),
                             fillCell r.descr])⟩ := by
  rw [normalize_citi_ok rs h]
  refine congrArg Except.ok (congrArg (Table.mk _) (map_congr_mem _ _ _ (fun r _ => ?_)))
  rw [ratAdd_eq_add]

/-- Witness for C3 at the data of Scenario 2 of the spec: the blank Credit
counts as 0 and the Amount is the parsed Debit 14.52. -/
theorem normalize_citi_spec_witness :
    normalize_citi (mkRaw (citiHeader :: [c3row].map CitiRaw.toRow)) =
      .ok ⟨[.str "Date", .str "Amount", .str "Description"],
           [[.str "01/28/2023", .num (mkRat 1452 100),
             .str "BROOKLYN PARK PET HOSPITA BROOKLYN PARK MN"]]⟩ :=
  (normalize_citi_spec [c3row] (by decide)).trans
    (by simp only [← ratAdd_eq_add]; rfl)

/-- Counterexample for C4 as stated: normalize_discover emits its output with
the columns in the order Date, Description, Amount, which is not the uniform
order Date, Amount, Description that the claim asserts every normalizer
emits. -/
theorem normalize_discover_spec_counterexample :
    normalize_discover (mkRaw (discoverHeader :: [c4row].map DiscoverRaw.toRow)) =
      .ok ⟨[.str "Date", .str "Description", .str "Amount"],
           [[.str "01/10/2022", .str "THE HOME DEPOT #0509 AUSTIN TX",
             .num (mkRat 2703 100)]]⟩ ∧
    ([Cell.str "Date", .str "Description", .str "Amount"] ≠
      [Cell.str "Date", .str "Amount", .str "Description"]) :=
  ⟨rfl, by decide⟩

/-- C4 (amended). For every raw table in Format B (canonical discover layout,
header row Trans. Date, Post Date, Description, Amount, Category) whose
Amount cells are numeric, normalize_discover treats row 0 as column names and
drops it, drops the Post Date and Category columns, renames Trans. Date to
Date, parses Amount as a number, and emits its output with the columns in the
order Date, Description, Amount — not the uniform Date, Amount, Description
order of the other two normalizers. -/
theorem normalize_discover_spec (rs : List DiscoverRaw)
    (h : ∀ r ∈ rs, numericOk r.amount) :
    normalize_discover (mkRaw (discoverHeader :: rs.map DiscoverRaw.toRow)) =
      .ok ⟨[.str "Date", .str "Description", .str "Amount"],
           rs.map (fun r => [r.transDate, r.descr, toNumCell r.amount])⟩ :=
  normalize_discover_ok rs h

/-- Witness for the amended C4 at the data of Scenario 3 of the spec. -/
theorem normalize_discover_spec_witness :
    normalize_discover (mkRaw (discoverHeader :: [c4row].map DiscoverRaw.toRow)) =
      .ok ⟨[.str "Date", .str "Description", .str "Amount"],
           [[.str "01/10/2022", .str "THE HOME DEPOT #0509 AUSTIN TX",
             .num (mkRat 2703 100)]]⟩ :=
  (normalize_discover_spec [c4row] (by decide)).trans (by rfl)

/-- C5. For every nonempty raw table in Format C, normalize_wellsfargo keeps
the fixed positional columns 0 (date), 1 (amount) and 4 (description), drops
columns 2 and 3, renames the remaining three columns to Date, Amount,
Description, and preserves every row in order: no header row is dropped. -/
theorem normalize_wellsfargo_spec (r0 : WfRaw) (rs : List WfRaw) :
    normalize_wellsfargo (mkRaw ((r0 :: rs).map WfRaw.toRow)) =
      .ok ⟨[.str "Date", .str "Amount", .str "Description"],
           (r0 :: rs).map (fun r => [r.date, r.amount, r.descr])⟩ :=
  normalize_wellsfargo_ok r0 rs

/-- C6. The normalizers do signal normalization errors (ValueError for an
unparsable numeric cell, KeyError for a missing expected column), but main
catches neither for Format A or B files: the exception propagates out of the
file loop, the whole run aborts with that error and no output is written.
This contradicts the claim that the error does not crash the run, and matches
the open question of the spec (sections 7 and 9) that flags the current
behavior as an uncaught fatal error to be tightened, not copied. -/
theorem normalizer_error_crashes_run :
    normalize_citi badCitiNumeric = .error .valueError ∧
    mainRun containsCI demoRules [("bad.csv", badCitiNumeric)] = .error .valueError ∧
    normalize_citi badCitiMissing = .error .keyError ∧
    mainRun containsCI demoRules [("bad2.csv", badCitiMissing)] = .error .keyError :=
  ⟨rfl, rfl, rfl, rfl⟩

theorem processFile_unrecognized (st : List Table × List String)
    (f : String × Table) (s : String) (h00 : f.2.at00 = .ok (.str s))
    (h1 : s ≠ "Status") (h2 : s ≠ "Trans. Date")
    (h3 : parseDateMMDDYYYY s = false) :
    processFile st f = .ok (st.1, st.2 ++ [unknownFormatMsg f.1]) := by
  have hdet : detectCell (.str s) = .ok .unrecognized := by
    simp [detectCell, h1, h2, h3]
  unfold processFile
  rw [h00, bindOk, hdet, bindOk]

/-- C7. A file whose first cell is a string matching none of the three format
detectors contributes zero rows (the accumulator of normalized tables is
unchanged), emits the diagnostic naming the offending file, and the loop
continues with the remaining files from that same state. -/
theorem unrecognized_file_skipped (name : String) (t : Table) (s : String)
    (acc : List Table) (diags : List String) (rest : List (String × Table))
    (h00 : t.at00 = .ok (.str s)) (h1 : s ≠ "Status") (h2 : s ≠ "Trans. Date")
    (h3 : parseDateMMDDYYYY s = false) :
    processAllFrom (acc, diags) ((name, t) :: rest) =
      processAllFrom (acc, diags ++ [unknownFormatMsg name]) rest := by
  have hp := processFile_unrecognized (acc, diags) (name, t) s h00 h1 h2 h3
  unfold processAllFrom
  rw [List.foldlM_cons, hp, bindOk]

/-- Witness for C7 at Scenario 5 of the spec: the unrecognized file is
skipped with a diagnostic and the remaining Format C file is still
processed from the unchanged accumulator. -/
theorem unrecognized_file_skipped_witness :
    processAllFrom ([], []) [("bad.csv", scen5Table), ("wf.csv", wfScenTable)] =
      processAllFrom ([], [unknownFormatMsg "bad.csv"]) [("wf.csv", wfScenTable)] :=
  unrecognized_file_skipped "bad.csv" scen5Table "???" [] []
    [("wf.csv", wfScenTable)] rfl (by decide) (by decide) (by decide)

theorem processAll_all_unrecognized (files : List (String × Table))
    (h : ∀ f ∈ files, ∃ s, f.2.at00 = .ok (.str s) ∧ s ≠ "Status" ∧
      s ≠ "Trans. Date" ∧ parseDateMMDDYYYY s = false) :
    ∀ diags, processAllFrom ([], diags) files =
      .ok ([], diags ++ files.map (fun f => unknownFormatMsg f.1)) := by
  induction files with
  | nil =>
    intro diags
    simp [processAllFrom]
    rfl
  | cons f fs ih =>
    intro diags
    obtain ⟨s, h00, h1, h2, h3⟩ := h f (by simp)
    unfold processAllFrom
    rw [List.foldlM_cons, processFile_unrecognized ([], diags) f s h00 h1 h2 h3,
        bindOk]
    have := ih (fun g hg => h g (by simp [hg])) (diags ++ [unknownFormatMsg f.1])
    unfold processAllFrom at this
    rw [this]
    simp

/-- C10. When every input file fails format detection, the accumulator of
normalized tables stays empty, pd.concat raises ValueError on the empty
list, the exception is uncaught, and the run aborts without producing an
output table. -/
theorem all_unrecognized_aborts (search : String → String → Bool)
    (rules : List (String × String)) (files : List (String × Table))
    (h : ∀ f ∈ files, ∃ s, f.2.at00 = .ok (.str s) ∧ s ≠ "Status" ∧
      s ≠ "Trans. Date" ∧ parseDateMMDDYYYY s = false) :
    mainRun search rules files = .error .valueError := by
  unfold mainRun processAll
  rw [processAll_all_unrecognized files h [], bindOk]
  rfl

/-- Witness for C10: a run whose only file is the unrecognized file of
Scenario 5 aborts with ValueError instead of writing an empty output. -/
theorem all_unrecognized_aborts_witness :
    mainRun containsCI demoRules [("bad.csv", scen5Table)] = .error .valueError :=
  all_unrecognized_aborts containsCI demoRules _ (by
    intro f hf
    simp only [List.mem_singleton] at hf
    subst hf
    exact ⟨"???", rfl, by decide, by decide, by decide⟩)

theorem canonCols_cases (g : SrcFile) :
    g.canonCols = [Cell.str "Date", .str "Amount", .str "Description"] ∨
    g.canonCols = [Cell.str "Date", .str "Description", .str "Amount"] := by
  cases g with
  | citi rs => exact Or.inl rfl
  | discover rs => exact Or.inr rfl
  | wellsfargo rs => exact Or.inl rfl

theorem processFile_canon (st : List Table × List String) (name : String)
    (f : SrcFile) (h : wellFormed f = true) :
    processFile st (name, f.raw) = .ok (st.1 ++ [f.canonTable], st.2) := by
  cases f with
  | citi rs =>
    have hall := List.all_eq_true.mp h
    have hnum : ∀ r ∈ rs, numericOk r.debit ∧ numericOk r.credit := by
      intro r hr
      have hx := hall r hr
      simp only [Bool.and_eq_true] at hx
      exact ⟨hx.1.1, hx.1.2⟩
    have hstr : ∀ r ∈ rs, cellIsStr r.descr = true := by
      intro r hr
      have hx := hall r hr
      simp only [Bool.and_eq_true] at hx
      exact hx.2
    have h00 : (mkRaw (citiHeader :: rs.map CitiRaw.toRow)).at00 =
        .ok (.str "Status") := rfl
    have hdet : detectCell (.str "Status") = .ok Format.citi := rfl
    have hnorm := normalize_citi_ok rs hnum
    simp only [processFile, SrcFile.raw]
    rw [h00, bindOk, hdet, bindOk, hnorm, bindOk]
    refine congrArg Except.ok (congrArg (fun x => (st.1 ++ [x], st.2)) ?_)
    unfold SrcFile.canonTable
    simp only [SrcFile.canonCols, SrcFile.recs]
    refine congrArg (Table.mk _) ?_
    rw [List.map_map]
    refine map_congr_mem _ _ _ (fun r hr => ?_)
    simp only [Function.comp_apply]
    have hs := hstr r hr
    cases hdesc : r.descr with
    | str s2 => rfl
    | num q => rw [hdesc] at hs; simp [cellIsStr] at hs
    | nan => rw [hdesc] at hs; simp [cellIsStr] at hs
  | discover rs =>
    have hall := List.all_eq_true.mp h
    have hnum : ∀ r ∈ rs, numericOk r.amount = true := by
      intro r hr
      have hx := hall r hr
      simp only [Bool.and_eq_true] at hx
      exact hx.1
    have hstr : ∀ r ∈ rs, cellIsStr r.descr = true := by
      intro r hr
      have hx := hall r hr
      simp only [Bool.and_eq_true] at hx
      exact hx.2
    have h00 : (mkRaw (discoverHeader :: rs.map DiscoverRaw.toRow)).at00 =
        .ok (.str "Trans. Date") := rfl
    have hdet : detectCell (.str "Trans. Date") = .ok Format.discover := rfl
    have hnorm := normalize_discover_ok rs hnum
    simp only [processFile, SrcFile.raw]
    rw [h00, bindOk, hdet, bindOk, hnorm, bindOk]
    refine congrArg Except.ok (congrArg (fun x => (st.1 ++ [x], st.2)) ?_)
    unfold SrcFile.canonTable
    simp only [SrcFile.canonCols, SrcFile.recs]
    refine congrArg (Table.mk _) ?_
    rw [List.map_map]
    refine map_congr_mem _ _ _ (fun r hr => ?_)
    simp only [Function.comp_apply]
    have hs := hstr r hr
    cases hdesc : r.descr with
    | str s2 => rfl
    | num q => rw [hdesc] at hs; simp [cellIsStr] at hs
    | nan => rw [hdesc] at hs; simp [cellIsStr] at hs
  | wellsfargo rs =>
    cases rs with
    | nil => simp [wellFormed] at h
    | cons r0 rest =>
      simp only [wellFormed, Bool.and_eq_true] at h
      have hstr : ∀ r ∈ r0 :: rest, cellIsStr r.descr = true :=
        List.all_eq_true.mp h.1
      have hdm := h.2
      cases hd : r0.date with
      | str s =>
        rw [hd] at hdm
        have hp : parseDateMMDDYYYY s = true := hdm
        have hns : s ≠ "Status" := by
          intro e; rw [e] at hp; exact absurd hp (by decide)
        have hnt : s ≠ "Trans. Date" := by
          intro e; rw [e] at hp; exact absurd hp (by decide)
        have h00 : (mkRaw ((r0 :: rest).map WfRaw.toRow)).at00 = .ok r0.date := rfl
        have hdet : detectCell (.str s) = .ok Format.wellsfargo := by
          simp [detectCell, hns, hnt, hp]
        have hnorm := normalize_wellsfargo_ok r0 rest
        simp only [processFile, SrcFile.raw]
        rw [h00, bindOk, hd, hdet, bindOk, hnorm]
        refine congrArg Except.ok (congrArg (fun x => (st.1 ++ [x], st.2)) ?_)
        unfold SrcFile.canonTable
        simp only [SrcFile.canonCols, SrcFile.recs]
        refine congrArg (Table.mk _) ?_
        rw [List.map_map]
        refine map_congr_mem _ _ _ (fun r hr => ?_)
        simp only [Function.comp_apply]
        have hs := hstr r hr
        cases hdesc : r.descr with
        | str s2 => rfl
        | num q => rw [hdesc] at hs; simp [cellIsStr] at hs
        | nan => rw [hdesc] at hs; simp [cellIsStr] at hs
      | num q => rw [hd] at hdm; simp at hdm
      | nan => rw [hd] at hdm; simp at hdm

theorem processAll_canon (ps : List (String × SrcFile)) (st : List Table × List String)
    (h : ∀ p ∈ ps, wellFormed p.2 = true) :
    processAllFrom st (ps.map (fun p => (p.1, p.2.raw))) =
      .ok (st.1 ++ ps.map (fun p => p.2.canonTable), st.2) := by
  induction ps generalizing st with
  | nil =>
    simp [processAllFrom]
    rfl
  | cons p ps ih =>
    simp only [List.map_cons]
    unfold processAllFrom
    rw [List.foldlM_cons, processFile_canon st p.1 p.2 (h p (by simp)), bindOk]
    have hrest := ih (st.1 ++ [p.2.canonTable], st.2)
      (fun q hq => h q (by simp [hq]))
    unfold processAllFrom at hrest
    rw [hrest]
    simp

theorem mapM_categoryCell (search : String → String → Bool)
    (rules : List (String × String)) (l : List Cell)
    (h : ∀ c ∈ l, cellIsStr c = true) :
    l.mapM (categoryCell search rules) =
      .ok (l.map (fun c => .str (lookup search (strOf c) rules))) := by
  induction l with
  | nil => rfl
  | cons c cs ih =>
    have hc := h c (by simp)
    rw [List.mapM_cons, ih (fun x hx => h x (by simp [hx]))]
    cases c with
    | str s => rfl
    | num q => simp [cellIsStr] at hc
    | nan => simp [cellIsStr] at hc

theorem colsUnion_canon (c1 c2 : List Cell)
    (h1 : c1 = [Cell.str "Date", .str "Amount", .str "Description"] ∨
      c1 = [Cell.str "Date", .str "Description", .str "Amount"])
    (h2 : c2 = [Cell.str "Date", .str "Amount", .str "Description"] ∨
      c2 = [Cell.str "Date", .str "Description", .str "Amount"]) :
    colsUnion c1 c2 = c1 := by
  rcases h1 with rfl | rfl <;> rcases h2 with rfl | rfl <;> rfl

theorem reindex_render (c1 c2 : List Cell)
    (h1 : c1 = [Cell.str "Date", .str "Amount", .str "Description"] ∨
      c1 = [Cell.str "Date", .str "Description", .str "Amount"])
    (h2 : c2 = [Cell.str "Date", .str "Amount", .str "Description"] ∨
      c2 = [Cell.str "Date", .str "Description", .str "Amount"])
    (rec : Cell × Cell × String) :
    reindexRow c1 c2 (renderRec c1 rec) = renderRec c2 rec := by
  rcases h1 with rfl | rfl <;> rcases h2 with rfl | rfl <;> rfl

theorem concat_canon (p0 : String × SrcFile) (ps : List (String × SrcFile)) :
    concatTables ((p0 :: ps).map (fun p => p.2.canonTable)) =
      .ok ⟨p0.2.canonCols,
           ((p0 :: ps).map (fun p => p.2.recs.map (renderRec p0.2.canonCols))).flatten⟩ := by
  have hfold : ∀ (ts : List (String × SrcFile)) (acc : List Cell),
      (acc = [Cell.str "Date", .str "Amount", .str "Description"] ∨
        acc = [Cell.str "Date", .str "Description", .str "Amount"]) →
      (ts.map (fun p => p.2.canonTable)).foldl (fun a u => colsUnion a u.cols) acc =
        acc := by
    intro ts
    induction ts with
    | nil => intro acc hacc; rfl
    | cons q qs ih =>
      intro acc hacc
      simp only [List.map_cons, List.foldl_cons]
      rw [colsUnion_canon acc q.2.canonTable.cols hacc (canonCols_cases q.2)]
      exact ih acc hacc
  have hfile : ∀ g : SrcFile,
      g.canonTable.rows.map (reindexRow g.canonTable.cols p0.2.canonCols) =
        g.recs.map (renderRec p0.2.canonCols) := by
    intro g
    show (g.recs.map (renderRec g.canonCols)).map
        (reindexRow g.canonCols p0.2.canonCols) = _
    rw [List.map_map]
    refine map_congr_mem _ _ _ (fun rec _ => ?_)
    simp only [Function.comp_apply]
    exact reindex_render g.canonCols p0.2.canonCols (canonCols_cases g)
      (canonCols_cases p0.2) rec
  show concatTables (p0.2.canonTable :: ps.map (fun p => p.2.canonTable)) = _
  unfold concatTables
  dsimp only
  rw [hfold ps p0.2.canonTable.cols (canonCols_cases p0.2)]
  refine congrArg Except.ok ?_
  show Table.mk p0.2.canonCols _ = Table.mk p0.2.canonCols _
  refine congrArg (Table.mk _) (congrArg List.flatten ?_)
  show (p0.2.canonTable :: ps.map (fun p => p.2.canonTable)).map
      (fun u => u.rows.map (reindexRow u.cols p0.2.canonCols)) = _
  simp only [List.map_cons, List.map_map]
  refine congrArg₂ List.cons (hfile p0.2) ?_
  refine map_congr_mem _ _ _ (fun q _ => ?_)
  simp only [Function.comp_apply]
  exact hfile q.2

theorem applyCategory_canon (search : String → String → Bool)
    (rules : List (String × String)) (cols : List Cell)
    (hc : cols = [Cell.str "Date", .str "Amount", .str "Description"] ∨
      cols = [Cell.str "Date", .str "Description", .str "Amount"])
    (rl : List (Cell × Cell × String)) :
    applyCategory search rules ⟨cols, rl.map (renderRec cols)⟩ =
      .ok ⟨cols ++ [.str "Category"],
           rl.map (fun rec => renderRec cols rec ++
             [.str (lookup search rec.2.2 rules)])⟩ := by
  rcases hc with rfl | rfl
  · have hg : Table.getCol
        ⟨[Cell.str "Date", .str "Amount", .str "Description"],
         rl.map (renderRec [Cell.str "Date", .str "Amount", .str "Description"])⟩
        (.str "Description") =
        .ok ((rl.map (renderRec [Cell.str "Date", .str "Amount", .str "Description"])).map
          (fun r => r.getD 2 .nan)) := rfl
    unfold applyCategory
    rw [hg, bindOk, mapM_categoryCell]
    · rw [bindOk]
      have hset : ∀ rows vals, Table.setCol
          ⟨[Cell.str "Date", .str "Amount", .str "Description"], rows⟩
          (.str "Category") vals =
          ⟨[Cell.str "Date", .str "Amount", .str "Description"] ++ [.str "Category"],
           (rows.zip vals).map (fun p => p.1 ++ [p.2])⟩ := fun _ _ => rfl
      rw [hset]
      refine congrArg Except.ok (congrArg (Table.mk _) ?_)
      simp only [List.map_map, zip_map_map]
      refine map_congr_mem _ _ _ (fun rec _ => ?_)
      rfl
    · intro c hcm
      simp only [List.map_map, List.mem_map] at hcm
      obtain ⟨rec, _, rfl⟩ := hcm
      rfl
  · have hg : Table.getCol
        ⟨[Cell.str "Date", .str "Description", .str "Amount"],
         rl.map (renderRec [Cell.str "Date", .str "Description", .str "Amount"])⟩
        (.str "Description") =
        .ok ((rl.map (renderRec [Cell.str "Date", .str "Description", .str "Amount"])).map
          (fun r => r.getD 1 .nan)) := rfl
    unfold applyCategory
    rw [hg, bindOk, mapM_categoryCell]
    · rw [bindOk]
      have hset : ∀ rows vals, Table.setCol
          ⟨[Cell.str "Date", .str "Description", .str "Amount"], rows⟩
          (.str "Category") vals =
          ⟨[Cell.str "Date", .str "Description", .str "Amount"] ++ [.str "Category"],
           (rows.zip vals).map (fun p => p.1 ++ [p.2])⟩ := fun _ _ => rfl
      rw [hset]
      refine congrArg Except.ok (congrArg (Table.mk _) ?_)
      simp only [List.map_map, zip_map_map]
      refine map_congr_mem _ _ _ (fun rec _ => ?_)
      rfl
    · intro c hcm
      simp only [List.map_map, List.mem_map] at hcm
      obtain ⟨rec, _, rfl⟩ := hcm
      rfl

theorem flatten_map_render (L : List (String × SrcFile))
    (f : Cell × Cell × String → List Cell) :
    (L.map (fun p => p.2.recs.map f)).flatten =
      ((L.map (fun p => p.2.recs)).flatten).map f := by
  induction L with
  | nil => rfl
  | cons p ps ih => simp [ih]

theorem mainRun_canon (search : String → String → Bool)
    (rules : List (String × String)) (p0 : String × SrcFile)
    (ps : List (String × SrcFile))
    (h : ∀ p ∈ p0 :: ps, wellFormed p.2 = true) :
    mainRun search rules ((p0 :: ps).map (fun p => (p.1, p.2.raw))) =
      .ok (⟨p0.2.canonCols ++ [.str "Category"],
            (((p0 :: ps).map (fun p => p.2.recs)).flatten).map
              (fun rec => renderRec p0.2.canonCols rec ++
                [.str (lookup search rec.2.2 rules)])⟩, []) := by
  unfold mainRun processAll
  rw [processAll_canon (p0 :: ps) ([], []) h, bindOk]
  simp only [List.nil_append]
  rw [concat_canon p0 ps, bindOk, flatten_map_render,
      applyCategory_canon search rules p0.2.canonCols (canonCols_cases p0.2), bindOk]

/-- C9. For every sequence of well-formed input files, the run succeeds and
the output table is the concatenation, in input-file order, of the per-file
normalized records with each file's row order preserved exactly; the
categorization step appends to each record one Category cell computed by
lookup from its description, without reordering, adding or removing rows. -/
theorem consolidated_order_preserved (search : String → String → Bool)
    (rules : List (String × String)) (p0 : String × SrcFile)
    (ps : List (String × SrcFile))
    (h : ∀ p ∈ p0 :: ps, wellFormed p.2 = true) :
    mainRun search rules ((p0 :: ps).map (fun p => (p.1, p.2.raw))) =
      .ok (⟨p0.2.canonCols ++ [.str "Category"],
            (((p0 :: ps).map (fun p => p.2.recs)).flatten).map
              (fun rec => renderRec p0.2.canonCols rec ++
                [.str (lookup search rec.2.2 rules)])⟩, []) :=
  mainRun_canon search rules p0 ps h

/-- Witness for C9: a Format B file followed by a Format C file; the Format C
rows are re-laid-out under the first file's Date, Description, Amount column
order, rows appear in file order then row order, and each row gains the
looked-up category. -/
theorem consolidated_order_preserved_witness :
    mainRun containsCI demoRules
        ([("d.csv", SrcFile.discover [c4row]),
          ("w.csv", SrcFile.wellsfargo [c9wfRow])].map (fun p => (p.1, p.2.raw))) =
      .ok (⟨[.str "Date", .str "Description", .str "Amount", .str "Category"],
            [[.str "01/10/2022", .str "THE HOME DEPOT #0509 AUSTIN TX",
              .num (mkRat 2703 100), .str "unknown"],
             [.str "01/10/2023", .str "Audible Amzn", .num (mkRat (-724) 100),
              .str "unknown"]]⟩, []) :=
  (consolidated_order_preserved containsCI demoRules
      ("d.csv", SrcFile.discover [c4row]) [("w.csv", SrcFile.wellsfargo [c9wfRow])]
      (by decide)).trans (by rfl)

/-- Counterexample for C8 as stated: when the first (or only) input file is
Format B, the output columns are Date, Description, Amount, Category, not
the claimed Date, Amount, Description, Category — pd.concat adopts the first
frame's column order, so the output schema does depend on the input order. -/
theorem output_schema_counterexample :
    mainRun containsCI demoRules [("d.csv", (SrcFile.discover [c4row]).raw)] =
      .ok (⟨[.str "Date", .str "Description", .str "Amount", .str "Category"],
            [[.str "01/10/2022", .str "THE HOME DEPOT #0509 AUSTIN TX",
              .num (mkRat 2703 100), .str "unknown"]]⟩, []) ∧
    ([Cell.str "Date", .str "Description", .str "Amount", .str "Category"] ≠
      [Cell.str "Date", .str "Amount", .str "Description", .str "Category"]) :=
  ⟨rfl, by decide⟩

/-- C8 (amended). Every run over well-formed recognized files writes a table
with one row per transaction and exactly the columns Date, Amount,
Description, Category in that order when the first input file is Format A or
Format C; when the first input file is Format B the column order is Date,
Description, Amount, Category, because pd.concat adopts the column order of
the first normalized frame. -/
theorem output_schema (search : String → String → Bool)
    (rules : List (String × String)) (p0 : String × SrcFile)
    (ps : List (String × SrcFile))
    (h : ∀ p ∈ p0 :: ps, wellFormed p.2 = true) :
    ∃ tbl : Table,
      mainRun search rules ((p0 :: ps).map (fun p => (p.1, p.2.raw))) =
        .ok (tbl, []) ∧
      tbl.cols = (match p0.2 with
        | SrcFile.discover _ => [Cell.str "Date", .str "Description", .str "Amount"]
        | _ => [Cell.str "Date", .str "Amount", .str "Description"]) ++
        [.str "Category"] ∧
      tbl.rows.length = ((p0 :: ps).map (fun p => p.2.recs.length)).sum := by
  refine ⟨_, mainRun_canon search rules p0 ps h, ?_, ?_⟩
  · rfl
  · rw [List.length_map, List.length_flatten, List.map_map]
    refine congrArg List.sum (map_congr_mem _ _ _ (fun p _ => ?_))
    rfl

/-- Witness for the amended C8 at a Format B file followed by a Format C
file: the columns come out Date, Description, Amount, Category and there are
two rows for the two transactions. -/
theorem output_schema_witness :
    ∃ tbl : Table,
      mainRun containsCI demoRules
          ([("d.csv", SrcFile.discover [c4row]),
            ("w.csv", SrcFile.wellsfargo [c9wfRow])].map (fun p => (p.1, p.2.raw))) =
        .ok (tbl, []) ∧
      tbl.cols = (match SrcFile.discover [c4row] with
        | SrcFile.discover _ => [Cell.str "Date", .str "Description", .str "Amount"]
        | _ => [Cell.str "Date", .str "Amount", .str "Description"]) ++
        [.str "Category"] ∧
      tbl.rows.length = ([("d.csv", SrcFile.discover [c4row]),
        ("w.csv", SrcFile.wellsfargo [c9wfRow])].map (fun p => p.2.recs.length)).sum :=
  output_schema containsCI demoRules ("d.csv", SrcFile.discover [c4row])
    [("w.csv", SrcFile.wellsfargo [c9wfRow])] (by decide)

end SpendAnalysis
